import Mathlib

/-!
Shallow embedding of the GoodBooks catalog service: the FastAPI endpoints of
`app/main.py` and the CSV loader of `ingest/ingest.py`, modelled over
in-memory collections (Lean lists of records).  Python/Mongo floats are
modelled as `ℚ`, Python ints as `Int`; fallible endpoints return `Except`.
MongoDB store primitives (`find`/`sort`/`skip`/`limit`, `$regex`,
`count_documents`, aggregation stages, `update_one` upserts) are modelled by
their documented semantics on a list of documents.
-/

namespace GoodBooks

/-- Floor of a rational as an integer (`den` is positive, so Euclidean
    division of `num` by `den` is floor division). -/
def ratFloor (q : ℚ) : ℤ := q.num / q.den

/-- Python `round` ties-to-even integer rounding on an exact rational:
    at a tie (fractional part exactly 1/2) pick the even neighbour,
    otherwise round to the nearest integer. -/
def roundHalfEven (q : ℚ) : ℤ :=
  let f := ratFloor q
  let frac := q - (f : ℚ)
  if frac < 1 / 2 then f
  else if frac = 1 / 2 then (if f % 2 = 0 then f else f + 1)
  else f + 1

/-- Python `round(x, 2)` (as used on the rating average), modelled exactly
    over `ℚ`: scale by 100, round ties-to-even, scale back. -/
def round2 (q : ℚ) : ℚ := (roundHalfEven (q * 100) : ℚ) / 100

/-- A document of the `books` collection (pydantic model `Book`,
    `app/main.py`). -/
structure Book where
  book_id : Int
  goodreads_book_id : Int
  title : String
  authors : String
  original_publication_year : Option ℚ
  average_rating : ℚ
  ratings_count : Int
  image_url : String
deriving DecidableEq, Repr

/-- A document of the `ratings` collection. -/
structure Rating where
  user_id : Int
  book_id : Int
  rating : Int
deriving DecidableEq, Repr

/-- A document of the `tags` collection. -/
structure Tag where
  tag_id : Int
  tag_name : String
deriving DecidableEq, Repr

/-- A document of the `book_tags` collection. -/
structure BookTag where
  goodreads_book_id : Int
  tag_id : Int
  count : Int
deriving DecidableEq, Repr

/-! ### The store's regex primitive

`list_books` builds the filter `{"$regex": q, "$options": "i"}`: the query
string is handed to the store's regex engine as a PATTERN, not escaped.  We
model the fragment of that engine exercised by patterns made of literal
characters and the `.` wildcard: `.` matches any character, any other
character matches itself case-insensitively (option `i`).  The full
metacharacter set of the engine is listed so that theorems can restrict to
patterns the fragment models faithfully (on metacharacter-free patterns the
engine performs plain substring search, which the fragment agrees with). -/

/-- The regex metacharacters of the store's regex engine (PCRE). -/
def regexMetachars : List Char :=
  ['.', '^', '$', '*', '+', '?', '(', ')', '[', ']', '|', '\\',
    Char.ofNat 123, Char.ofNat 125]

/-- One pattern character against one subject character, case-insensitive:
    `.` matches anything, other characters match up to case. -/
def charMatch (p c : Char) : Bool := p == '.' || p.toLower == c.toLower

/-- Match the whole pattern at the head of the subject. -/
def matchHere : List Char → List Char → Bool
  | [], _ => true
  | _ :: _, [] => false
  | p :: ps, c :: cs => charMatch p c && matchHere ps cs

/-- Unanchored search: try to match at every position of the subject. -/
def searchFrom (pat : List Char) : List Char → Bool
  | [] => matchHere pat []
  | c :: cs => matchHere pat (c :: cs) || searchFrom pat cs

/-- MongoDB `{"$regex": pat, "$options": "i"}` applied to a string field:
    case-insensitive unanchored regex search. -/
def regexSearchCI (pat s : String) : Bool := searchFrom pat.toList s.toList

/-- Case-insensitive literal prefix test (spec-side notion). -/
def isPrefixCI : List Char → List Char → Bool
  | [], _ => true
  | _ :: _, [] => false
  | p :: ps, c :: cs => (p.toLower == c.toLower) && isPrefixCI ps cs

/-- Case-insensitive literal substring search at every position. -/
def containsFrom (pat : List Char) : List Char → Bool
  | [] => isPrefixCI pat []
  | c :: cs => isPrefixCI pat (c :: cs) || containsFrom pat cs

/-- Spec-side definition, from the claim's words: `s` contains `pat` as a
    case-insensitive LITERAL substring (pure substring search, not anchored,
    no tokenization). -/
def containsSubstrCI (pat s : String) : Bool := containsFrom pat.toList s.toList

/-! ### Filter Builder (`list_books`, `app/main.py` lines 97-112) -/

/-- The `q` constraint: Python `if q:` skips it when `q` is `None` or the
    empty string; otherwise an `$or` of `$regex`/`$options i` over `title`
    and `authors`. -/
def matchesQ (q : Option String) (b : Book) : Bool :=
  match q with
  | none => true
  | some s => if s = "" then true else regexSearchCI s b.title || regexSearchCI s b.authors

/-- The `min_avg` constraint: Python `if min_avg:` skips it when `min_avg`
    is `None` or `0`; otherwise `average_rating ≥ min_avg` (`$gte`). -/
def matchesMinAvg (m : Option ℚ) (b : Book) : Bool :=
  match m with
  | none => true
  | some v => if v = 0 then true else decide (v ≤ b.average_rating)

/-- The year-range constraint: built only when `year_from or year_to` is
    truthy (so `None` and `0` bounds are inactive); each active bound is an
    inclusive comparison, and a numeric `$gte`/`$lte` does not match a
    document whose `original_publication_year` field is missing. -/
def matchesYear (yf yt : Option Int) (b : Book) : Bool :=
  let fromActive : Bool := match yf with | none => false | some y => y != 0
  let toActive : Bool := match yt with | none => false | some y => y != 0
  if fromActive || toActive then
    match b.original_publication_year with
    | none => false
    | some y =>
        (!fromActive || decide (((yf.getD 0 : Int) : ℚ) ≤ y)) &&
        (!toActive || decide (y ≤ ((yt.getD 0 : Int) : ℚ)))
  else true

/-- The composite filter document of `list_books`: all present constraints
    combine conjunctively. -/
def bookFilter (q : Option String) (m : Option ℚ) (yf yt : Option Int) (b : Book) : Bool :=
  matchesQ q b && matchesMinAvg m b && matchesYear yf yt b

/-! ### Sort/Paginate Engine -/

/-- The `sort` query parameter, already mapped through `sort_field_map`. -/
inductive SortKey
  | avg
  | ratings_count
  | year
  | title
deriving DecidableEq, Repr

/-- MongoDB field order for the optional publication year: a missing field
    sorts before any number. -/
def optYearLe (a b : Option ℚ) : Bool :=
  match a, b with
  | none, _ => true
  | some _, none => false
  | some x, some y => decide (x ≤ y)

/-- Ascending comparison on the chosen sort field. -/
def fieldLe (k : SortKey) (a b : Book) : Bool :=
  match k with
  | .avg => decide (a.average_rating ≤ b.average_rating)
  | .ratings_count => decide (a.ratings_count ≤ b.ratings_count)
  | .year => optYearLe a.original_publication_year b.original_publication_year
  | .title => decide (a.title ≤ b.title)

/-- The cursor's sort comparator: `order=desc` flips the field comparison. -/
def bookLe (k : SortKey) (asc : Bool) (a b : Book) : Bool :=
  if asc then fieldLe k a b else fieldLe k b a

/-- The sorted filtered set that the `list_books` cursor walks
    (`find(filter).sort(...)`); ties are resolved by a stable sort as a
    deterministic model of the store's unspecified tie order. -/
def sortedBooks (books : List Book) (q : Option String) (m : Option ℚ)
    (yf yt : Option Int) (key : SortKey) (asc : Bool) : List Book :=
  (books.filter (bookFilter q m yf yt)).mergeSort (bookLe key asc)

/-- The shape of the paginated responses (`PaginatedResponse`). -/
structure Paginated (α : Type) where
  items : List α
  page : Int
  page_size : Int
  total : Nat
deriving Repr

/-- GET `/books` (`list_books`, `app/main.py` lines 86-133).  FastAPI
    validates `page ≥ 1` and `1 ≤ page_size ≤ 100` before the body runs.
    `total` comes from a separate `count_documents` over the same filter;
    the items from `find(filter).sort(..).skip((page-1)*page_size)
    .limit(page_size)`. -/
def list_books (books : List Book) (q : Option String) (m : Option ℚ)
    (yf yt : Option Int) (key : SortKey) (asc : Bool) (page page_size : Int) :
    Paginated Book :=
  let total := books.countP (bookFilter q m yf yt)
  let sorted := sortedBooks books q m yf yt key asc
  let items := (sorted.drop ((page - 1) * page_size).toNat).take page_size.toNat
  ⟨items, page, page_size, total⟩

/-- MongoDB cursor `limit(n)`: `limit(0)` means NO limit (the documented
    behaviour of the store and of its Python driver); a nonzero `n` bounds
    the result by `|n|`. -/
def mongoLimit {α : Type} (n : Int) (l : List α) : List α :=
  if n = 0 then l else l.take n.natAbs

/-- GET `/tags` (`get_all_tags`, `app/main.py` lines 183-190): plain `int`
    parameters, NO FastAPI range validation, `find().skip((page-1)*page_size)
    .limit(page_size)` with `total = count_documents({})`. -/
def get_all_tags (tags : List Tag) (page page_size : Int) : Paginated Tag :=
  let total := tags.length
  let items := mongoLimit page_size (tags.drop ((page - 1) * page_size).toNat)
  ⟨items, page, page_size, total⟩

/-! ### Join/Aggregation Engine -/

/-- One row of the tags join output (the `$project` shape). -/
structure TagRow where
  tag_id : Int
  count : Int
  tag_name : String
deriving DecidableEq, Repr

/-- The response of GET `/books/{book_id}/tags`. -/
structure BookTagsOut where
  book_id : Int
  tags : List TagRow
deriving DecidableEq, Repr

/-- Comparator for the `$sort {count: -1}` stage (descending by count). -/
def tagRowLe (a b : TagRow) : Bool := decide (b.count ≤ a.count)

/-- The `$match`/`$lookup`/`$unwind`/`$project` part of the tags pipeline:
    BookTag rows with the book's goodreads id, each expanded against every
    `tags` document with the same `tag_id` (so a row with no matching tag is
    dropped), reshaped to `{tag_id, count, tag_name}`. -/
def tagJoinRows (book_tags : List BookTag) (tags : List Tag) (gr_id : Int) : List TagRow :=
  (book_tags.filter (fun bt => bt.goodreads_book_id == gr_id)).flatMap
    (fun bt => (tags.filter (fun t => t.tag_id == bt.tag_id)).map
      (fun t => TagRow.mk bt.tag_id bt.count t.tag_name))

/-- GET `/books/{book_id}/tags` (`get_book_tags`, `app/main.py` lines
    142-172): resolve the book (404 when absent), run the aggregation
    pipeline on `book_tags`, sort by `count` descending. -/
def get_book_tags (books : List Book) (book_tags : List BookTag)
    (tags : List Tag) (bid : Int) : Except Nat BookTagsOut :=
  match books.find? (fun bk => bk.book_id == bid) with
  | none => .error 404
  | some bk =>
      .ok ⟨bid, (tagJoinRows book_tags tags bk.goodreads_book_id).mergeSort tagRowLe⟩

/-- The scores of all Rating rows for a book: what the `$match` plus
    `$push "$rating"` of the summary pipeline collects. -/
def bookScores (ratings : List Rating) (bid : Int) : List Int :=
  (ratings.filter (fun r => r.book_id == bid)).map (fun r => r.rating)

/-- The response of GET `/books/{book_id}/ratings/summary`; the histogram is
    a Python dict, modelled as its association list in insertion order. -/
structure RatingSummary where
  book_id : Int
  average : ℚ
  count : Nat
  histogram : List (Int × Nat)
deriving DecidableEq, Repr

/-- GET `/books/{book_id}/ratings/summary` (`get_rating_summary`,
    `app/main.py` lines 209-234): a `$group` computing `$avg`, `$sum 1` and
    `$push`; with no matching Rating the pipeline yields no group and the
    endpoint returns average 0, count 0 and an empty histogram dict;
    otherwise the histogram is `{i: dist.count(i) for i in range(1, 6)}` and
    the average is Python `round(avg, 2)`. -/
def get_rating_summary (ratings : List Rating) (bid : Int) : RatingSummary :=
  let dist := bookScores ratings bid
  if dist = [] then ⟨bid, 0, 0, []⟩
  else
    ⟨bid, round2 ((dist.sum : ℚ) / (dist.length : ℚ)), dist.length,
      ([1, 2, 3, 4, 5] : List Int).map (fun i => (i, dist.count i))⟩

/-! ### Rating upsert and its credential guard -/

/-- The `update_one` filter `{"user_id": u, "book_id": b}`. -/
def ratingKeyMatch (u b : Int) (r : Rating) : Bool :=
  r.user_id == u && r.book_id == b

/-- The fields of pymongo's `UpdateResult` that the endpoint reports
    (`upserted` is `upserted_id is not None`). -/
structure UpdateResult where
  upserted : Bool
  matched : Nat
deriving DecidableEq, Repr

/-- Apply `$set {"rating": v}` to the first document matching the key
    filter (under the unique index there is at most one). -/
def setRatingFirst (u b v : Int) : List Rating → List Rating
  | [] => []
  | r :: rs =>
      if ratingKeyMatch u b r then { r with rating := v } :: rs
      else r :: setRatingFirst u b v rs

/-- POST `/ratings` body (`upsert_rating`, `app/main.py` lines 236-247):
    `update_one({user_id, book_id}, {"$set": {rating}}, upsert=True)`;
    returns the new collection and the reported `{upserted, matched}`. -/
def upsert_rating (ratings : List Rating) (u b v : Int) :
    List Rating × UpdateResult :=
  if ratings.any (ratingKeyMatch u b) then
    (setRatingFirst u b v ratings, ⟨false, 1⟩)
  else
    (ratings ++ [⟨u, b, v⟩], ⟨true, 0⟩)

/-- The auth check `verify_api_key` (`app/main.py` lines 69-73): the
    `x-api-key` header (absent = `none`) must equal the configured key. -/
def verify_api_key (header : Option String) (apiKey : String) : Bool :=
  header == some apiKey

/-- The full request path of POST `/ratings`: FastAPI runs the
    `verify_api_key` dependency before the endpoint body, so a failing check
    returns 401 with the collection untouched. -/
def postRatings (header : Option String) (apiKey : String)
    (ratings : List Rating) (u b v : Int) :
    List Rating × Except Nat UpdateResult :=
  if verify_api_key header apiKey then
    ((upsert_rating ratings u b v).1, .ok (upsert_rating ratings u b v).2)
  else (ratings, .error 401)

/-! ### Ingestion loader (`ingest/ingest.py` lines 46-69)

A CSV row is an association of column names to optional cell values; a
stored document is an association of field names to values.  One
`UpdateOne(filter, {"$set": data}, upsert=True)` per row, filter built from
the declared unique key fields. -/

/-- A stored document: field name to value, first binding wins. -/
abbrev Doc := List (String × String)

/-- A raw CSV row: a missing cell is `none`. -/
structure CsvRow where
  cells : List (String × Option String)
deriving DecidableEq, Repr

/-- Pandas `df.fillna("")`: every missing cell becomes the empty string. -/
def fillna (r : CsvRow) : Doc := r.cells.map (fun p => (p.1, p.2.getD ""))

/-- Does document `d` match the idempotency filter
    `{k: data[k] for k in key_fields}`? -/
def docMatches (keys : List String) (data d : Doc) : Bool :=
  keys.all (fun k => d.lookup k == data.lookup k)

/-- MongoDB `$set data` on an existing document: every field named in
    `data` takes `data`'s value, the other fields keep the document's. -/
def setFields (d data : Doc) : Doc :=
  data ++ d.filter (fun p => (data.lookup p.1).isNone)

/-- Update the first matching document of the collection. -/
def updateFirst (keys : List String) (data : Doc) : List Doc → List Doc
  | [] => []
  | d :: ds =>
      if docMatches keys data d then setFields d data :: ds
      else d :: updateFirst keys data ds

/-- One `UpdateOne(filter_doc, {"$set": data}, upsert=True)`: update the
    first match, else insert the merge of filter and `$set` document, which
    here is `data` itself (the filter's fields are a subset of `data` with
    the same values). -/
def applyUpdateOne (keys : List String) (coll : List Doc) (data : Doc) : List Doc :=
  if coll.any (docMatches keys data) then updateFirst keys data coll
  else coll ++ [data]

/-- `ingest_collection`: fill missing values with the empty string, then
    the ordered bulk of per-row upserts. -/
def ingest_collection (keys : List String) (coll : List Doc)
    (rows : List CsvRow) : List Doc :=
  rows.foldl (fun c r => applyUpdateOne keys c (fillna r)) coll

/-- Querying the store back by a row's unique-key filter. -/
def queryByKey (keys : List String) (data : Doc) (coll : List Doc) : List Doc :=
  coll.filter (docMatches keys data)

/-! ### Sanity: the executable floor agrees with the mathematical floor -/

theorem ratFloor_eq_floor (q : ℚ) : ratFloor q = ⌊q⌋ := by
  rw [Rat.floor_def]; rfl

/-! ### Regex vs literal substring (claim C4) -/

theorem matchHere_eq_isPrefixCI (pat : List Char) (h : '.' ∉ pat) :
    ∀ t, matchHere pat t = isPrefixCI pat t := by
  induction pat with
  | nil => intro t; cases t <;> rfl
  | cons p ps ih =>
      intro t
      have hp : (p == '.') = false := by
        simp only [beq_eq_false_iff_ne]
        intro he; exact h (he ▸ List.mem_cons_self p ps)
      have hps : '.' ∉ ps := fun hm => h (List.mem_cons_of_mem _ hm)
      cases t with
      | nil => rfl
      | cons c cs => simp [matchHere, isPrefixCI, charMatch, hp, ih hps]

theorem searchFrom_eq_containsFrom (pat : List Char) (h : '.' ∉ pat) :
    ∀ t, searchFrom pat t = containsFrom pat t := by
  intro t
  induction t with
  | nil => simp [searchFrom, containsFrom, matchHere_eq_isPrefixCI pat h]
  | cons c cs ih => simp [searchFrom, containsFrom, matchHere_eq_isPrefixCI pat h, ih]

theorem regexSearchCI_eq_containsSubstrCI (pat s : String) (h : '.' ∉ pat.toList) :
    regexSearchCI pat s = containsSubstrCI pat s :=
  searchFrom_eq_containsFrom pat.toList h s.toList

/-- A book whose title matches the pattern `a.b` as a regex (the `.`
    wildcard) but does not contain it as a literal substring. -/
def dotBook : Book := ⟨1, 1, "axb", "x", none, 1, 0, ""⟩

/-- C4 counterexample: the `q` filter does NOT treat `q` as a literal
    string: `q = "a.b"` matches the book titled `axb`, although neither
    title nor authors contains `a.b` as a (case-insensitive) substring. -/
theorem C4_counterexample_regex_not_literal :
    matchesQ (some "a.b") dotBook = true
    ∧ (containsSubstrCI "a.b" dotBook.title
        || containsSubstrCI "a.b" dotBook.authors) = false := by
  refine ⟨by with_unfolding_all decide, by with_unfolding_all decide⟩

/-- C4 (amended): the present non-empty `q` is interpreted as a regex
    pattern; when `q` contains no regex metacharacter the filter matches
    exactly when title or authors contains `q` as a case-insensitive
    literal substring, and an empty or absent `q` imposes no constraint. -/
theorem C4_q_filter_literal_when_metachar_free (b : Book) (q : String)
    (hq : q ≠ "") (hlit : ∀ c ∈ q.toList, c ∉ regexMetachars) :
    (matchesQ (some q) b = true ↔
      (containsSubstrCI q b.title = true ∨ containsSubstrCI q b.authors = true))
    ∧ matchesQ none b = true ∧ matchesQ (some "") b = true := by
  have hdot : '.' ∉ q.toList := fun hm => (hlit '.' hm) (by decide)
  refine ⟨?_, rfl, rfl⟩
  simp [matchesQ, hq, regexSearchCI_eq_containsSubstrCI _ _ hdot]

/-- A book containing `ab` case-insensitively in its title. -/
def abBook : Book := ⟨3, 3, "xAby", "z", none, 1, 0, ""⟩

theorem C4_witness :
    ("ab" : String) ≠ ""
    ∧ ((matchesQ (some "ab") abBook = true ↔
        (containsSubstrCI "ab" abBook.title = true
          ∨ containsSubstrCI "ab" abBook.authors = true))
      ∧ matchesQ none abBook = true ∧ matchesQ (some "") abBook = true) :=
  ⟨by decide, C4_q_filter_literal_when_metachar_free abBook "ab" (by decide) (by decide)⟩

/-! ### The `min_avg` filter (claim C5) -/

/-- A book with a negative stored `average_rating` (the field is an
    unconstrained float in the schema). -/
def negBook : Book := ⟨2, 2, "t", "a", none, -1, 0, ""⟩

/-- C5 counterexample: with `min_avg = 0` present the filter still matches
    a book whose `average_rating` is below 0, because Python `if min_avg:`
    treats the value 0 as falsy and builds no `$gte` constraint. -/
theorem C5_counterexample_min_avg_zero :
    matchesMinAvg (some 0) negBook = true
    ∧ ¬ ((0 : ℚ) ≤ negBook.average_rating) := by
  refine ⟨by with_unfolding_all decide, by with_unfolding_all decide⟩

/-- C5 (amended): a present NONZERO `min_avg` constrains
    `average_rating ≥ min_avg`; an absent `min_avg`, or `min_avg = 0`,
    imposes no constraint. -/
theorem C5_min_avg_filter (b : Book) (m : ℚ) :
    matchesMinAvg none b = true
    ∧ matchesMinAvg (some 0) b = true
    ∧ (m ≠ 0 → (matchesMinAvg (some m) b = true ↔ m ≤ b.average_rating)) := by
  refine ⟨rfl, by simp [matchesMinAvg], fun hm => ?_⟩
  simp [matchesMinAvg, hm]

theorem C5_witness :
    matchesMinAvg (some 0) negBook = true
    ∧ (matchesMinAvg (some 1) negBook = true ↔ (1 : ℚ) ≤ negBook.average_rating) :=
  ⟨(C5_min_avg_filter negBook 1).2.1, (C5_min_avg_filter negBook 1).2.2 one_ne_zero⟩

/-! ### Unauthorized writes (claim C7) -/

/-- C7: a POST /ratings whose credential header is missing or wrong is
    rejected with 401 and the Rating collection is unchanged. -/
theorem C7_unauthorized_no_write (header : Option String) (apiKey : String)
    (ratings : List Rating) (u b v : Int) (h : header ≠ some apiKey) :
    postRatings header apiKey ratings u b v = (ratings, .error 401) := by
  simp [postRatings, verify_api_key, h]

theorem C7_witness :
    (none : Option String) ≠ some "secret123"
    ∧ postRatings none "secret123" [] 1 1 5 = ([], .error 401) :=
  ⟨by simp, C7_unauthorized_no_write none "secret123" [] 1 1 5 (by simp)⟩

/-! ### GET /tags without validation (claim C10) -/

/-- C10: the tags listing performs no page validation; `page_size = 0`
    returns the whole collection (the store's `limit(0)` means "no limit"),
    and `total` is always the full collection count. -/
theorem C10_tags_page_size_zero (tags : List Tag) (page page_size : Int) :
    get_all_tags tags page 0 = ⟨tags, page, 0, tags.length⟩
    ∧ (get_all_tags tags page page_size).total = tags.length := by
  refine ⟨?_, rfl⟩
  simp [get_all_tags, mongoLimit]

/-! ### Rating summary (claims C1 and C9) -/

theorem bookScores_length (ratings : List Rating) (bid : Int) :
    (bookScores ratings bid).length = ratings.countP (fun r => r.book_id == bid) := by
  simp [bookScores, List.countP_eq_length_filter]

/-- C1: the rating summary returns the row count, the arithmetic mean
    rounded to 2 decimal places (ties to even), and the histogram over the
    integer scores 1..5 (zero buckets included) whenever at least one
    rating exists; for a book with no ratings it returns average 0,
    count 0 and an empty histogram. -/
theorem C1_rating_summary (ratings : List Rating) (bid : Int) :
    (get_rating_summary ratings bid).book_id = bid
    ∧ (get_rating_summary ratings bid).count
        = ratings.countP (fun r => r.book_id == bid)
    ∧ (bookScores ratings bid ≠ [] →
        (get_rating_summary ratings bid).average
            = round2 (((bookScores ratings bid).sum : ℚ)
                / ((bookScores ratings bid).length : ℚ))
        ∧ (get_rating_summary ratings bid).histogram
            = ([1, 2, 3, 4, 5] : List Int).map
                (fun i => (i, (bookScores ratings bid).count i)))
    ∧ (bookScores ratings bid = [] →
        get_rating_summary ratings bid = ⟨bid, 0, 0, []⟩) := by
  by_cases h : bookScores ratings bid = []
  · refine ⟨by simp [get_rating_summary, h], ?_, fun hne => absurd h hne, fun _ => by simp [get_rating_summary, h]⟩
    rw [← bookScores_length, h]
    simp [get_rating_summary, h]
  · exact ⟨by simp [get_rating_summary, h], by rw [← bookScores_length]; simp [get_rating_summary, h],
      fun _ => ⟨by simp [get_rating_summary, h], by simp [get_rating_summary, h]⟩,
      fun he => absurd he h⟩

/-- The ratings of the spec's worked example: scores [5,5,5,4,3] on book 1. -/
def exRatings : List Rating := [⟨1,1,5⟩, ⟨2,1,5⟩, ⟨3,1,5⟩, ⟨4,1,4⟩, ⟨5,1,3⟩]

theorem C1_witness :
    bookScores exRatings 1 ≠ []
    ∧ (get_rating_summary exRatings 1).average = 22 / 5
    ∧ (get_rating_summary exRatings 1).count = 5
    ∧ (get_rating_summary exRatings 1).histogram
        = [(1, 0), (2, 0), (3, 1), (4, 1), (5, 3)] := by
  have h := C1_rating_summary exRatings 1
  refine ⟨by decide, ?_, ?_, ?_⟩
  · rw [(h.2.2.1 (by decide)).1]; with_unfolding_all decide
  · rw [h.2.1]; decide
  · rw [(h.2.2.1 (by decide)).2]; decide

theorem count_one_to_five_sum (l : List Int) (h : ∀ x ∈ l, 1 ≤ x ∧ x ≤ 5) :
    l.count 1 + l.count 2 + l.count 3 + l.count 4 + l.count 5 = l.length := by
  induction l with
  | nil => rfl
  | cons x xs ih =>
      have hx := h x (List.mem_cons_self x xs)
      have ih' := ih fun y hy => h y (List.mem_cons_of_mem x hy)
      simp only [List.count_cons, List.length_cons]
      have h1 := hx.1
      have h2 := hx.2
      interval_cases x <;> simp <;> omega

/-- C9: for a book with at least one rating, all stored scores in [1,5],
    the histogram has exactly the keys 1..5 and its values sum to the
    returned count. -/
theorem C9_histogram_keys_and_sum (ratings : List Rating) (bid : Int)
    (hne : bookScores ratings bid ≠ [])
    (hrange : ∀ r ∈ ratings, r.book_id = bid → 1 ≤ r.rating ∧ r.rating ≤ 5) :
    ((get_rating_summary ratings bid).histogram.map Prod.fst = [1, 2, 3, 4, 5])
    ∧ (((get_rating_summary ratings bid).histogram.map Prod.snd).sum
        = (get_rating_summary ratings bid).count) := by
  have hr : ∀ x ∈ bookScores ratings bid, 1 ≤ x ∧ x ≤ 5 := by
    intro x hx
    simp only [bookScores, List.mem_map, List.mem_filter] at hx
    obtain ⟨r, ⟨hrm, hrb⟩, hx⟩ := hx
    exact hx ▸ hrange r hrm (by simpa using hrb)
  constructor
  · simp [get_rating_summary, hne]
  · have hsum := count_one_to_five_sum (bookScores ratings bid) hr
    simp only [get_rating_summary, if_neg hne, List.map_map]
    simp only [Function.comp_def]
    simp only [List.map_cons, List.map_nil, List.sum_cons, List.sum_nil]
    omega

theorem C9_witness :
    ((get_rating_summary exRatings 1).histogram.map Prod.fst = [1, 2, 3, 4, 5])
    ∧ (((get_rating_summary exRatings 1).histogram.map Prod.snd).sum
        = (get_rating_summary exRatings 1).count) :=
  C9_histogram_keys_and_sum exRatings 1 (by decide) (by decide)

/-! ### Rating upsert idempotence (claim C3) -/

theorem ratingKeyMatch_set (u b v : Int) (r : Rating) :
    ratingKeyMatch u b { r with rating := v } = ratingKeyMatch u b r := rfl

theorem countP_setRatingFirst (u b v : Int) (rs : List Rating) :
    (setRatingFirst u b v rs).countP (ratingKeyMatch u b)
      = rs.countP (ratingKeyMatch u b) := by
  induction rs with
  | nil => rfl
  | cons r rs ih =>
      by_cases h : ratingKeyMatch u b r = true
      · simp [setRatingFirst, h, List.countP_cons, ratingKeyMatch_set]
      · simp [setRatingFirst, h, List.countP_cons, ih]

theorem setRatingFirst_rating (u b v : Int) (rs : List Rating)
    (huniq : rs.countP (ratingKeyMatch u b) ≤ 1) :
    ∀ r ∈ setRatingFirst u b v rs, ratingKeyMatch u b r = true → r.rating = v := by
  induction rs with
  | nil => intro r hr; cases hr
  | cons a rs ih =>
      rw [List.countP_cons] at huniq
      intro r hr hm
      by_cases h : ratingKeyMatch u b a = true
      · rw [if_pos h] at huniq
        simp only [setRatingFirst, if_pos h] at hr
        rcases List.mem_cons.mp hr with rfl | hr
        · rfl
        · exfalso
          have h0 : rs.countP (ratingKeyMatch u b) = 0 := by omega
          exact absurd hm (List.countP_eq_zero.mp h0 r hr)
      · rw [if_neg h] at huniq
        simp only [setRatingFirst, if_neg h] at hr
        rcases List.mem_cons.mp hr with rfl | hr
        · exact absurd hm h
        · exact ih (by omega) r hr hm

theorem upsert_countP (rs : List Rating) (u b v : Int)
    (huniq : rs.countP (ratingKeyMatch u b) ≤ 1) :
    ((upsert_rating rs u b v).1).countP (ratingKeyMatch u b) = 1 := by
  by_cases h : rs.any (ratingKeyMatch u b) = true
  · have hfst : (upsert_rating rs u b v).1 = setRatingFirst u b v rs := by
      unfold upsert_rating; rw [if_pos h]
    rw [hfst, countP_setRatingFirst]
    obtain ⟨r, hr, hm⟩ := List.any_eq_true.mp h
    have hpos := List.countP_pos_iff.mpr ⟨r, hr, hm⟩
    omega
  · have hfst : (upsert_rating rs u b v).1 = rs ++ [⟨u, b, v⟩] := by
      unfold upsert_rating; rw [if_neg h]
    have h0 : rs.countP (ratingKeyMatch u b) = 0 :=
      List.countP_eq_zero.mpr fun a ha hm => h (List.any_eq_true.mpr ⟨a, ha, hm⟩)
    rw [hfst, List.countP_append, h0]
    simp [List.countP_cons, ratingKeyMatch]

theorem upsert_rating_values (rs : List Rating) (u b v : Int)
    (huniq : rs.countP (ratingKeyMatch u b) ≤ 1) :
    ∀ r ∈ (upsert_rating rs u b v).1, ratingKeyMatch u b r = true → r.rating = v := by
  by_cases h : rs.any (ratingKeyMatch u b) = true
  · have hfst : (upsert_rating rs u b v).1 = setRatingFirst u b v rs := by
      unfold upsert_rating; rw [if_pos h]
    rw [hfst]
    exact setRatingFirst_rating u b v rs huniq
  · have hfst : (upsert_rating rs u b v).1 = rs ++ [⟨u, b, v⟩] := by
      unfold upsert_rating; rw [if_neg h]
    rw [hfst]
    intro r hr hm
    rcases List.mem_append.mp hr with hr | hr
    · have h0 : rs.countP (ratingKeyMatch u b) = 0 :=
        List.countP_eq_zero.mpr fun a ha hma => h (List.any_eq_true.mpr ⟨a, ha, hma⟩)
      exact absurd hm (List.countP_eq_zero.mp h0 r hr)
    · rw [List.mem_singleton] at hr
      subst hr; rfl

theorem upsert_any_of_countP_one (rs : List Rating) (u b : Int)
    (h : rs.countP (ratingKeyMatch u b) = 1) :
    rs.any (ratingKeyMatch u b) = true := by
  have hpos : 0 < rs.countP (ratingKeyMatch u b) := by omega
  obtain ⟨r, hr, hm⟩ := List.countP_pos_iff.mp hpos
  exact List.any_eq_true.mpr ⟨r, hr, hm⟩

theorem upsert_upserted (rs : List Rating) (u b v : Int) :
    (upsert_rating rs u b v).2.upserted = !(rs.any (ratingKeyMatch u b)) := by
  by_cases h : rs.any (ratingKeyMatch u b) = true
  · unfold upsert_rating; rw [if_pos h, h]; rfl
  · unfold upsert_rating; rw [if_neg h]
    rw [Bool.not_eq_true] at h
    rw [h]; rfl

/-- C3: rating upsert is idempotent: after submitting the same
    `(user_id, book_id, rating)` twice the collection holds exactly one
    record for the key, that record carries the submitted value, the second
    call reports `upserted = false`, and a first call on a previously
    absent key reports `upserted = true`. -/
theorem C3_upsert_idempotent (rs : List Rating) (u b v : Int)
    (hv : 1 ≤ v ∧ v ≤ 5) (huniq : rs.countP (ratingKeyMatch u b) ≤ 1) :
    (((upsert_rating (upsert_rating rs u b v).1 u b v).1).countP (ratingKeyMatch u b) = 1)
    ∧ (∀ r ∈ (upsert_rating (upsert_rating rs u b v).1 u b v).1,
        ratingKeyMatch u b r = true → r.rating = v)
    ∧ ((upsert_rating (upsert_rating rs u b v).1 u b v).2.upserted = false)
    ∧ (rs.countP (ratingKeyMatch u b) = 0 →
        (upsert_rating rs u b v).2.upserted = true) := by
  have h1 : ((upsert_rating rs u b v).1).countP (ratingKeyMatch u b) = 1 :=
    upsert_countP rs u b v huniq
  refine ⟨upsert_countP _ u b v (by omega), upsert_rating_values _ u b v (by omega), ?_, ?_⟩
  · rw [upsert_upserted, upsert_any_of_countP_one _ u b h1]; rfl
  · intro h0
    have hnone : rs.any (ratingKeyMatch u b) = false := by
      rw [Bool.eq_false_iff]
      intro hany
      obtain ⟨r, hr, hm⟩ := List.any_eq_true.mp hany
      have := List.countP_pos_iff.mpr ⟨r, hr, hm⟩
      omega
    rw [upsert_upserted, hnone]; rfl

theorem C3_witness :
    ((1 : Int) ≤ 5 ∧ (5 : Int) ≤ 5)
    ∧ ((((upsert_rating (upsert_rating [] 7 9 5).1 7 9 5).1).countP (ratingKeyMatch 7 9) = 1)
      ∧ (∀ r ∈ (upsert_rating (upsert_rating [] 7 9 5).1 7 9 5).1,
          ratingKeyMatch 7 9 r = true → r.rating = 5)
      ∧ ((upsert_rating (upsert_rating [] 7 9 5).1 7 9 5).2.upserted = false)
      ∧ (([] : List Rating).countP (ratingKeyMatch 7 9) = 0 →
          (upsert_rating [] 7 9 5).2.upserted = true)) :=
  ⟨⟨by decide, by decide⟩,
    C3_upsert_idempotent [] 7 9 5 ⟨by decide, by decide⟩ (by decide)⟩

/-! ### Pagination of GET /books (claim C2) -/

theorem sum_take_drop {α : Type} (s : Nat) :
    ∀ (N : Nat) (l : List α), l.length ≤ N * s →
      ((List.range N).map (fun (k : Nat) => ((l.drop (k * s)).take s).length)).sum = l.length := by
  intro N
  induction N with
  | zero =>
      intro l hl
      simp only [Nat.zero_mul, Nat.le_zero] at hl
      simp [hl]
  | succ N ih =>
      intro l hl
      have hmul : (N + 1) * s = N * s + s := by ring
      rw [hmul] at hl
      have hlen : (l.drop s).length ≤ N * s := by
        rw [List.length_drop]
        omega
      have ihd := ih (l.drop s) hlen
      rw [List.range_succ_eq_map]
      simp only [List.map_cons, List.sum_cons, List.map_map, Function.comp_def]
      have htail : ∀ k : Nat, ((l.drop (Nat.succ k * s)).take s).length
          = (((l.drop s).drop (k * s)).take s).length := by
        intro k
        rw [List.drop_drop]
        have hix : s + k * s = Nat.succ k * s := by
          rw [Nat.succ_mul]; omega
        rw [hix]
      simp only [htail]
      rw [ihd, Nat.zero_mul, List.drop_zero]
      have hsplit := congrArg List.length (List.take_append_drop s l)
      rw [List.length_append] at hsplit
      omega

theorem toNat_natCast_mul (k : Nat) (s : Int) (hs : 0 ≤ s) :
    ((k : Int) * s).toNat = k * s.toNat := by
  obtain ⟨n, rfl⟩ := Int.eq_ofNat_of_zero_le hs
  rw [← Int.natCast_mul, Int.toNat_natCast, Int.toNat_natCast]

/-- C2: for a validated page/page_size, the books listing returns at most
    `page_size` items, precisely the slice of the sorted filtered set at
    offset `(page-1)*page_size`; `total` is the full filtered count computed
    independently of the slice; an offset at or beyond the total yields an
    empty slice; and walking all pages exhaustively yields exactly `total`
    items. -/
theorem C2_list_books_pagination (books : List Book) (q : Option String)
    (m : Option ℚ) (yf yt : Option Int) (key : SortKey) (asc : Bool)
    (page page_size : Int) (hp : 1 ≤ page) (hs1 : 1 ≤ page_size)
    (hs2 : page_size ≤ 100) :
    ((list_books books q m yf yt key asc page page_size).items.length : Int) ≤ page_size
    ∧ (list_books books q m yf yt key asc page page_size).items
        = ((sortedBooks books q m yf yt key asc).drop
            ((page - 1) * page_size).toNat).take page_size.toNat
    ∧ (list_books books q m yf yt key asc page page_size).total
        = (books.filter (bookFilter q m yf yt)).length
    ∧ (((list_books books q m yf yt key asc page page_size).total : Int)
          ≤ (page - 1) * page_size →
        (list_books books q m yf yt key asc page page_size).items = [])
    ∧ (∀ N : Nat,
        (list_books books q m yf yt key asc page page_size).total ≤ N * page_size.toNat →
        ((List.range N).map (fun (k : Nat) =>
            (list_books books q m yf yt key asc ((k : Int) + 1) page_size).items.length)).sum
          = (list_books books q m yf yt key asc page page_size).total) := by
  have hitems : ∀ pg : Int, (list_books books q m yf yt key asc pg page_size).items
      = ((sortedBooks books q m yf yt key asc).drop ((pg - 1) * page_size).toNat).take
          page_size.toNat := fun pg => rfl
  have htotal : (list_books books q m yf yt key asc page page_size).total
      = (books.filter (bookFilter q m yf yt)).length :=
    List.countP_eq_length_filter _ _
  have hslen : (sortedBooks books q m yf yt key asc).length
      = (list_books books q m yf yt key asc page page_size).total := by
    rw [htotal]
    exact (List.mergeSort_perm _ _).length_eq
  refine ⟨?_, hitems page, htotal, ?_, ?_⟩
  · rw [hitems page]
    have h1 := List.length_take_le page_size.toNat
      ((sortedBooks books q m yf yt key asc).drop ((page - 1) * page_size).toNat)
    omega
  · intro hbeyond
    rw [hitems page]
    have hof : (sortedBooks books q m yf yt key asc).length
        ≤ ((page - 1) * page_size).toNat := by omega
    rw [List.drop_eq_nil_of_le hof, List.take_nil]
  · intro N hN
    have hcast : ∀ k : Nat, (((k : Int) + 1 - 1) * page_size).toNat = k * page_size.toNat := by
      intro k
      have he : ((k : Int) + 1 - 1) = (k : Int) := by ring
      rw [he, toNat_natCast_mul k page_size (by omega)]
    have hmap : ((List.range N).map (fun (k : Nat) =>
        (list_books books q m yf yt key asc ((k : Int) + 1) page_size).items.length)).sum
        = ((List.range N).map (fun (k : Nat) =>
            (((sortedBooks books q m yf yt key asc).drop (k * page_size.toNat)).take
              page_size.toNat).length)).sum := by
      apply congrArg
      apply List.map_congr_left
      intro k _
      rw [hitems ((k : Int) + 1), hcast k]
    rw [hmap, sum_take_drop page_size.toNat N _ (by omega), hslen]

/-- A three-book collection used to instantiate the pagination claim. -/
def wBooks : List Book :=
  [⟨1, 1, "A", "x", none, 1, 0, ""⟩, ⟨2, 2, "B", "y", none, 2, 0, ""⟩,
    ⟨3, 3, "C", "z", none, 3, 0, ""⟩]

theorem C2_witness :
    ((1 : Int) ≤ 1 ∧ (1 : Int) ≤ 2 ∧ (2 : Int) ≤ 100)
    ∧ (((list_books wBooks none none none none .avg true 1 2).items.length : Int) ≤ 2
      ∧ (list_books wBooks none none none none .avg true 1 2).items
          = ((sortedBooks wBooks none none none none .avg true).drop
              (((1 : Int) - 1) * 2).toNat).take (2 : Int).toNat
      ∧ (list_books wBooks none none none none .avg true 1 2).total
          = (wBooks.filter (bookFilter none none none none)).length
      ∧ (((list_books wBooks none none none none .avg true 1 2).total : Int)
            ≤ ((1 : Int) - 1) * 2 →
          (list_books wBooks none none none none .avg true 1 2).items = [])
      ∧ (∀ N : Nat,
          (list_books wBooks none none none none .avg true 1 2).total ≤ N * (2 : Int).toNat →
          ((List.range N).map (fun (k : Nat) =>
              (list_books wBooks none none none none .avg true ((k : Int) + 1) 2).items.length)).sum
            = (list_books wBooks none none none none .avg true 1 2).total)) :=
  ⟨⟨by decide, by decide, by decide⟩,
    C2_list_books_pagination wBooks none none none none .avg true 1 2
      (by decide) (by decide) (by decide)⟩

/-! ### The tags join (claim C6) -/

theorem find?_book_eq_none_iff (books : List Book) (bid : Int) :
    books.find? (fun bk => bk.book_id == bid) = none ↔ ∀ b ∈ books, b.book_id ≠ bid := by
  rw [List.find?_eq_none]
  constructor
  · intro h b hb
    simpa using h b hb
  · intro h b hb
    simpa using h b hb

theorem find?_book_of_nodup (books : List Book) (bid : Int) (b : Book)
    (hnd : (books.map Book.book_id).Nodup) (hb : b ∈ books) (hbid : b.book_id = bid) :
    books.find? (fun bk => bk.book_id == bid) = some b := by
  induction books with
  | nil => cases hb
  | cons c cs ih =>
      rw [List.map_cons, List.nodup_cons] at hnd
      rcases List.mem_cons.mp hb with rfl | hb2
      · exact List.find?_cons_of_pos _ (by simpa using hbid)
      · by_cases hc : c.book_id = bid
        · exfalso
          have hmem : b.book_id ∈ cs.map Book.book_id :=
            List.mem_map_of_mem Book.book_id hb2
          rw [hbid, ← hc] at hmem
          exact hnd.1 hmem
        · rw [List.find?_cons_of_neg _ (by simpa using hc)]
          exact ih hnd.2 hb2

theorem tagRowLe_trans (a b c : TagRow) (hab : tagRowLe a b = true)
    (hbc : tagRowLe b c = true) : tagRowLe a c = true := by
  simp only [tagRowLe, decide_eq_true_eq] at *
  omega

theorem tagRowLe_total (a b : TagRow) : (tagRowLe a b || tagRowLe b a) = true := by
  simp only [tagRowLe, Bool.or_eq_true, decide_eq_true_eq]
  omega

/-- C6: the tags lookup fails with 404 exactly when no book carries the
    requested `book_id`; for a present book (ids unique, as the store's
    unique index guarantees) it returns the inner join of its BookTag rows
    with the Tag collection, sorted by `count` descending, and the empty
    list when the book has no BookTag rows. -/
theorem C6_book_tags (books : List Book) (book_tags : List BookTag)
    (tags : List Tag) (bid : Int) :
    (get_book_tags books book_tags tags bid = .error 404 ↔ ∀ b ∈ books, b.book_id ≠ bid)
    ∧ (∀ b ∈ books, b.book_id = bid → (books.map Book.book_id).Nodup →
        ∃ out, get_book_tags books book_tags tags bid = .ok out
          ∧ out.book_id = bid
          ∧ out.tags.Perm (tagJoinRows book_tags tags b.goodreads_book_id)
          ∧ out.tags.Pairwise (fun x y => y.count ≤ x.count)
          ∧ (tagJoinRows book_tags tags b.goodreads_book_id = [] → out.tags = [])) := by
  constructor
  · constructor
    · intro h
      rw [← find?_book_eq_none_iff]
      cases hf : books.find? (fun bk => bk.book_id == bid) with
      | none => rfl
      | some bk =>
          exfalso
          simp only [get_book_tags, hf] at h
          cases h
    · intro h
      simp only [get_book_tags, (find?_book_eq_none_iff books bid).mpr h]
  · intro b hb hbid hnd
    have hf := find?_book_of_nodup books bid b hnd hb hbid
    refine ⟨⟨bid, (tagJoinRows book_tags tags b.goodreads_book_id).mergeSort tagRowLe⟩,
      ?_, rfl, ?_, ?_, ?_⟩
    · simp only [get_book_tags, hf]
    · exact List.mergeSort_perm _ _
    · have hs := List.sorted_mergeSort tagRowLe_trans tagRowLe_total
        (tagJoinRows book_tags tags b.goodreads_book_id)
      exact hs.imp fun h => by simpa [tagRowLe] using h
    · intro hnil
      rw [hnil]
      simp [List.mergeSort_nil]

/-- The book, book-tag rows and tags instantiating the tags-join claim. -/
def wTagBook : Book := ⟨10, 77, "T", "A", none, 1, 0, ""⟩

def wBookTags : List BookTag := [⟨77, 5, 3⟩, ⟨77, 6, 9⟩, ⟨88, 7, 1⟩]

def wTags : List Tag := [⟨5, "five"⟩, ⟨6, "six"⟩]

theorem C6_witness :
    ∃ out, get_book_tags [wTagBook] wBookTags wTags 10 = .ok out
      ∧ out.book_id = 10
      ∧ out.tags.Perm (tagJoinRows wBookTags wTags wTagBook.goodreads_book_id)
      ∧ out.tags.Pairwise (fun x y => y.count ≤ x.count)
      ∧ (tagJoinRows wBookTags wTags wTagBook.goodreads_book_id = [] → out.tags = []) :=
  (C6_book_tags [wTagBook] wBookTags wTags 10).2 wTagBook (by simp) rfl (by simp)

/-! ### Ingestion round-trip and idempotence (claim C8) -/

/-- The key projection of a document: its values at the declared unique key
    fields (the idempotency filter is equality on this projection). -/
def keyVec (keys : List String) (d : Doc) : List (Option String) := keys.map d.lookup

theorem lookup_append (l1 l2 : Doc) (k : String) :
    (l1 ++ l2).lookup k = ((l1.lookup k).or (l2.lookup k)) := by
  induction l1 with
  | nil => rfl
  | cons p ps ih =>
      obtain ⟨k1, v1⟩ := p
      by_cases h : (k == k1) = true
      · simp [List.lookup, h]
      · simp only [Bool.not_eq_true] at h
        simp [List.lookup, h, ih]

theorem lookup_filter_isNone (d : Doc) (data : Doc) (k : String)
    (h : (data.lookup k).isNone) :
    (d.filter (fun p => (data.lookup p.1).isNone)).lookup k = d.lookup k := by
  induction d with
  | nil => rfl
  | cons p ps ih =>
      obtain ⟨k1, v1⟩ := p
      by_cases hk : (k == k1) = true
      · have hkeq : k = k1 := by simpa using hk
        have hp : ((data.lookup k1).isNone) = true := by rw [← hkeq]; exact h
        simp [List.filter_cons, hp, List.lookup, hk]
      · by_cases hp : ((data.lookup k1).isNone) = true
        · simp [List.filter_cons, hp, List.lookup, hk, ih]
        · simp only [Bool.not_eq_true] at hp
          simp [List.filter_cons, hp, List.lookup, hk, ih]

theorem lookup_setFields (d data : Doc) (k : String) :
    (setFields d data).lookup k = ((data.lookup k).or (d.lookup k)) := by
  unfold setFields
  rw [lookup_append]
  cases hd : data.lookup k with
  | some v => rfl
  | none =>
      simp only [Option.none_or]
      exact lookup_filter_isNone d data k (by rw [hd]; rfl)

theorem lookup_setFields_of_isSome (d data : Doc) (k : String)
    (h : (data.lookup k).isSome) :
    (setFields d data).lookup k = data.lookup k := by
  rw [lookup_setFields]
  cases hd : data.lookup k with
  | some v => rfl
  | none => rw [hd] at h; cases h

theorem keyVec_setFields (keys : List String) (d data : Doc)
    (hk : ∀ k ∈ keys, (data.lookup k).isSome) :
    keyVec keys (setFields d data) = keyVec keys data := by
  unfold keyVec
  apply List.map_congr_left
  intro k hkm
  exact lookup_setFields_of_isSome d data k (hk k hkm)

theorem docMatches_cons (k : String) (ks : List String) (data d : Doc) :
    docMatches (k :: ks) data d
      = ((d.lookup k == data.lookup k) && docMatches ks data d) := rfl

theorem docMatches_iff (keys : List String) (data d : Doc) :
    docMatches keys data d = true ↔ keyVec keys d = keyVec keys data := by
  induction keys with
  | nil => simp [docMatches, keyVec]
  | cons k ks ih =>
      rw [docMatches_cons, Bool.and_eq_true, ih]
      unfold keyVec
      simp [List.map_cons, List.cons.injEq, beq_iff_eq, keyVec]

theorem docMatches_eq_decide (keys : List String) (data d : Doc) :
    docMatches keys data d = decide (keyVec keys d = keyVec keys data) := by
  by_cases h : keyVec keys d = keyVec keys data
  · rw [(docMatches_iff keys data d).mpr h, decide_eq_true h]
  · rw [decide_eq_false h]
    cases hb : docMatches keys data d with
    | false => rfl
    | true => exact absurd ((docMatches_iff keys data d).mp hb) h

theorem countP_updateFirst (keys : List String) (data1 data0 : Doc)
    (hk : ∀ k ∈ keys, (data1.lookup k).isSome) (coll : List Doc) :
    (updateFirst keys data1 coll).countP (docMatches keys data0)
      = coll.countP (docMatches keys data0) := by
  induction coll with
  | nil => rfl
  | cons d ds ih =>
      by_cases h : docMatches keys data1 d = true
      · simp only [updateFirst, if_pos h, List.countP_cons]
        have e1 : docMatches keys data0 (setFields d data1) = docMatches keys data0 d := by
          have hd := (docMatches_iff keys data1 d).mp h
          rw [docMatches_eq_decide, docMatches_eq_decide,
            keyVec_setFields keys d data1 hk, hd]
        rw [e1]
      · simp only [updateFirst, if_neg h, List.countP_cons, ih]

theorem filter_updateFirst_self (keys : List String) (data : Doc)
    (hk : ∀ k ∈ keys, (data.lookup k).isSome) (coll : List Doc)
    (hle : coll.countP (docMatches keys data) ≤ 1)
    (hany : coll.any (docMatches keys data) = true) :
    ∃ d, docMatches keys data d = true
      ∧ (updateFirst keys data coll).filter (docMatches keys data)
          = [setFields d data] := by
  induction coll with
  | nil => cases hany
  | cons d ds ih =>
      by_cases h : docMatches keys data d = true
      · refine ⟨d, h, ?_⟩
        simp only [updateFirst, if_pos h, List.filter_cons]
        have hset : docMatches keys data (setFields d data) = true := by
          rw [docMatches_eq_decide, keyVec_setFields keys d data hk]
          exact decide_eq_true rfl
        rw [if_pos hset]
        have h0 : ds.countP (docMatches keys data) = 0 := by
          rw [List.countP_cons, if_pos h] at hle
          omega
        have hlen : (ds.filter (docMatches keys data)).length = 0 := by
          rw [← List.countP_eq_length_filter]; exact h0
        rw [List.length_eq_zero.mp hlen]
      · rw [List.countP_cons, if_neg h] at hle
        rw [List.any_cons] at hany
        have hany2 : ds.any (docMatches keys data) = true := by
          rcases Bool.or_eq_true_iff.mp hany with h1 | h2
          · exact absurd h1 h
          · exact h2
        obtain ⟨d', hd1, hd2⟩ := ih (by omega) hany2
        refine ⟨d', hd1, ?_⟩
        simp only [updateFirst, if_neg h, List.filter_cons, if_neg h]
        exact hd2

theorem applyUpdateOne_query (keys : List String) (data : Doc)
    (hk : ∀ k ∈ keys, (data.lookup k).isSome) (coll : List Doc)
    (hle : coll.countP (docMatches keys data) ≤ 1) :
    ∃ d, queryByKey keys data (applyUpdateOne keys coll data) = [d]
      ∧ ∀ k v, data.lookup k = some v → d.lookup k = some v := by
  unfold applyUpdateOne queryByKey
  by_cases h : coll.any (docMatches keys data) = true
  · rw [if_pos h]
    obtain ⟨d, _, hfil⟩ := filter_updateFirst_self keys data hk coll hle h
    refine ⟨setFields d data, hfil, ?_⟩
    intro k v hkv
    rw [lookup_setFields, hkv]; rfl
  · rw [if_neg h]
    refine ⟨data, ?_, fun k v hkv => hkv⟩
    rw [List.filter_append]
    have h0 : coll.filter (docMatches keys data) = [] :=
      List.filter_eq_nil_iff.mpr fun a ha hpa =>
        h (List.any_eq_true.mpr ⟨a, ha, hpa⟩)
    rw [h0]
    have hself : docMatches keys data data = true := (docMatches_iff keys data data).mpr rfl
    simp [List.filter_cons, hself]

theorem filter_applyUpdateOne_other (keys : List String) (data1 data0 : Doc)
    (hk : ∀ k ∈ keys, (data1.lookup k).isSome)
    (hne : keyVec keys data1 ≠ keyVec keys data0) (coll : List Doc) :
    queryByKey keys data0 (applyUpdateOne keys coll data1)
      = queryByKey keys data0 coll := by
  unfold applyUpdateOne queryByKey
  by_cases h : coll.any (docMatches keys data1) = true
  · rw [if_pos h]
    clear h
    induction coll with
    | nil => rfl
    | cons d ds ih =>
        by_cases hd : docMatches keys data1 d = true
        · simp only [updateFirst, if_pos hd, List.filter_cons]
          have hnew : docMatches keys data0 (setFields d data1) = false := by
            rw [docMatches_eq_decide, keyVec_setFields keys d data1 hk]
            exact decide_eq_false hne
          have hold : docMatches keys data0 d = false := by
            rw [docMatches_eq_decide, (docMatches_iff keys data1 d).mp hd]
            exact decide_eq_false hne
          rw [if_neg (by rw [hnew]; exact Bool.false_ne_true),
            if_neg (by rw [hold]; exact Bool.false_ne_true)]
        · simp only [updateFirst, if_neg hd, List.filter_cons]
          rw [ih]
  · rw [if_neg h, List.filter_append]
    have hdata1 : docMatches keys data0 data1 = false := by
      rw [docMatches_eq_decide]
      exact decide_eq_false hne
    simp [List.filter_cons, hdata1]

theorem countP_applyUpdateOne_le (keys : List String) (data1 data0 : Doc)
    (hk : ∀ k ∈ keys, (data1.lookup k).isSome) (coll : List Doc)
    (hle : coll.countP (docMatches keys data0) ≤ 1) :
    (applyUpdateOne keys coll data1).countP (docMatches keys data0) ≤ 1 := by
  unfold applyUpdateOne
  by_cases h : coll.any (docMatches keys data1) = true
  · rw [if_pos h, countP_updateFirst keys data1 data0 hk]
    exact hle
  · rw [if_neg h, List.countP_append]
    by_cases he : keyVec keys data1 = keyVec keys data0
    · have hdm : docMatches keys data0 data1 = true :=
        (docMatches_iff keys data0 data1).mpr he
      have h0 : coll.countP (docMatches keys data0) = 0 := by
        rw [List.countP_eq_zero]
        intro a ha hpa
        apply h
        apply List.any_eq_true.mpr
        refine ⟨a, ha, ?_⟩
        rw [docMatches_eq_decide] at hpa ⊢
        rw [he]
        exact hpa
      rw [h0]
      simp [List.countP_cons, hdm]
    · have hdm : docMatches keys data0 data1 = false := by
        rw [docMatches_eq_decide]
        exact decide_eq_false he
      simp only [List.countP_cons, hdm, List.countP_nil, if_neg Bool.false_ne_true]
      omega

theorem any_applyUpdateOne (keys : List String) (data1 data0 : Doc)
    (hk : ∀ k ∈ keys, (data1.lookup k).isSome) (coll : List Doc)
    (h : coll.any (docMatches keys data0) = true) :
    (applyUpdateOne keys coll data1).any (docMatches keys data0) = true := by
  unfold applyUpdateOne
  by_cases ha : coll.any (docMatches keys data1) = true
  · rw [if_pos ha]
    clear ha
    induction coll with
    | nil => cases h
    | cons d ds ih =>
        rw [List.any_cons] at h
        by_cases hd : docMatches keys data1 d = true
        · simp only [updateFirst, if_pos hd, List.any_cons]
          rcases Bool.or_eq_true_iff.mp h with h1 | h2
          · have hset : docMatches keys data0 (setFields d data1) = true := by
              rw [docMatches_eq_decide, keyVec_setFields keys d data1 hk,
                ← (docMatches_iff keys data1 d).mp hd]
              rw [docMatches_eq_decide] at h1
              exact h1
            simp [hset]
          · simp [h2]
        · simp only [updateFirst, if_neg hd, List.any_cons]
          rcases Bool.or_eq_true_iff.mp h with h1 | h2
          · simp [h1]
          · simp [ih h2]
  · rw [if_neg ha, List.any_append, h]
    rfl

theorem any_applyUpdateOne_self (keys : List String) (data : Doc)
    (hk : ∀ k ∈ keys, (data.lookup k).isSome) (coll : List Doc) :
    (applyUpdateOne keys coll data).any (docMatches keys data) = true := by
  unfold applyUpdateOne
  by_cases h : coll.any (docMatches keys data) = true
  · rw [if_pos h]
    induction coll with
    | nil => cases h
    | cons d ds ih =>
        by_cases hd : docMatches keys data d = true
        · simp only [updateFirst, if_pos hd, List.any_cons]
          have hset : docMatches keys data (setFields d data) = true := by
            rw [docMatches_eq_decide, keyVec_setFields keys d data hk]
            exact decide_eq_true rfl
          simp [hset]
        · rw [List.any_cons] at h
          rcases Bool.or_eq_true_iff.mp h with h1 | h2
          · exact absurd h1 hd
          · simp only [updateFirst, if_neg hd, List.any_cons]
            simp [ih h2]
  · rw [if_neg h, List.any_append]
    have hself : docMatches keys data data = true := (docMatches_iff keys data data).mpr rfl
    simp [List.any_cons, hself]

theorem length_updateFirst (keys : List String) (data : Doc) (coll : List Doc) :
    (updateFirst keys data coll).length = coll.length := by
  induction coll with
  | nil => rfl
  | cons d ds ih =>
      by_cases h : docMatches keys data d = true
      · simp [updateFirst, h]
      · simp [updateFirst, h, ih]

theorem length_applyUpdateOne_of_any (keys : List String) (data : Doc) (coll : List Doc)
    (h : coll.any (docMatches keys data) = true) :
    (applyUpdateOne keys coll data).length = coll.length := by
  unfold applyUpdateOne
  rw [if_pos h, length_updateFirst]

theorem ingest_cons (keys : List String) (coll : List Doc) (r : CsvRow)
    (rows : List CsvRow) :
    ingest_collection keys coll (r :: rows)
      = ingest_collection keys (applyUpdateOne keys coll (fillna r)) rows := rfl

theorem ingest_append (keys : List String) (coll : List Doc) (l1 l2 : List CsvRow) :
    ingest_collection keys coll (l1 ++ l2)
      = ingest_collection keys (ingest_collection keys coll l1) l2 := by
  unfold ingest_collection
  rw [List.foldl_append]

theorem ingest_countP_le (keys : List String) (data0 : Doc) (rows : List CsvRow)
    (hk : ∀ r ∈ rows, ∀ k ∈ keys, ((fillna r).lookup k).isSome) :
    ∀ coll : List Doc, coll.countP (docMatches keys data0) ≤ 1 →
      (ingest_collection keys coll rows).countP (docMatches keys data0) ≤ 1 := by
  induction rows with
  | nil => intro coll h; exact h
  | cons r rest ih =>
      intro coll h
      rw [ingest_cons]
      exact ih (fun r' hr' => hk r' (List.mem_cons_of_mem _ hr')) _
        (countP_applyUpdateOne_le keys (fillna r) data0
          (hk r (List.mem_cons_self _ _)) coll h)

theorem ingest_query_preserved (keys : List String) (data0 : Doc) (rows : List CsvRow)
    (hk : ∀ r ∈ rows, ∀ k ∈ keys, ((fillna r).lookup k).isSome)
    (hne : ∀ r ∈ rows, keyVec keys (fillna r) ≠ keyVec keys data0) :
    ∀ coll : List Doc,
      queryByKey keys data0 (ingest_collection keys coll rows)
        = queryByKey keys data0 coll := by
  induction rows with
  | nil => intro coll; rfl
  | cons r rest ih =>
      intro coll
      rw [ingest_cons,
        ih (fun r' h' => hk r' (List.mem_cons_of_mem _ h'))
          (fun r' h' => hne r' (List.mem_cons_of_mem _ h')),
        filter_applyUpdateOne_other keys (fillna r) data0
          (hk r (List.mem_cons_self _ _)) (hne r (List.mem_cons_self _ _))]

theorem ingest_any_preserved (keys : List String) (data0 : Doc) (rows : List CsvRow)
    (hk : ∀ r ∈ rows, ∀ k ∈ keys, ((fillna r).lookup k).isSome) :
    ∀ coll : List Doc, coll.any (docMatches keys data0) = true →
      (ingest_collection keys coll rows).any (docMatches keys data0) = true := by
  induction rows with
  | nil => intro coll h; exact h
  | cons r rest ih =>
      intro coll h
      rw [ingest_cons]
      exact ih (fun r' h' => hk r' (List.mem_cons_of_mem _ h')) _
        (any_applyUpdateOne keys (fillna r) data0 (hk r (List.mem_cons_self _ _)) coll h)

theorem ingest_all_matched (keys : List String) (rows : List CsvRow)
    (hk : ∀ r ∈ rows, ∀ k ∈ keys, ((fillna r).lookup k).isSome) :
    ∀ coll : List Doc, ∀ r ∈ rows,
      (ingest_collection keys coll rows).any (docMatches keys (fillna r)) = true := by
  induction rows with
  | nil => intro coll r hr; cases hr
  | cons a rest ih =>
      intro coll r hr
      rw [ingest_cons]
      rcases List.mem_cons.mp hr with rfl | hr2
      · exact ingest_any_preserved keys (fillna r) rest
          (fun r' h' => hk r' (List.mem_cons_of_mem _ h')) _
          (any_applyUpdateOne_self keys (fillna r) (hk r (List.mem_cons_self _ _)) coll)
      · exact ih (fun r' h' => hk r' (List.mem_cons_of_mem _ h')) _ r hr2

theorem ingest_length_of_all_matched (keys : List String) (rows : List CsvRow)
    (hk : ∀ r ∈ rows, ∀ k ∈ keys, ((fillna r).lookup k).isSome) :
    ∀ coll : List Doc,
      (∀ r ∈ rows, coll.any (docMatches keys (fillna r)) = true) →
      (ingest_collection keys coll rows).length = coll.length := by
  induction rows with
  | nil => intro coll _; rfl
  | cons a rest ih =>
      intro coll hm
      rw [ingest_cons,
        ih (fun r' h' => hk r' (List.mem_cons_of_mem _ h')) _
          (fun r hr => any_applyUpdateOne keys (fillna a) (fillna r)
            (hk a (List.mem_cons_self _ _)) coll (hm r (List.mem_cons_of_mem _ hr)))]
      exact length_applyUpdateOne_of_any keys (fillna a) coll (hm a (List.mem_cons_self _ _))

/-- C8: ingestion round-trip and idempotence.  For a CSV whose declared
    unique key is present in every row, a row `r` not superseded by any
    later row with the same key, and a store obeying the unique index
    (at most one document matches `r`'s key filter), loading leaves exactly
    one document matching `r`'s key, and that document carries the row's
    values (missing cells normalized to the empty string by `fillna`); and
    re-running the same ingestion creates no additional documents. -/
theorem C8_ingest_roundtrip_idempotent (keys : List String) (coll : List Doc)
    (pre post : List CsvRow) (r : CsvRow)
    (hk : ∀ r' ∈ pre ++ r :: post, ∀ k ∈ keys, ((fillna r').lookup k).isSome)
    (hpost : ∀ r' ∈ post, keyVec keys (fillna r') ≠ keyVec keys (fillna r))
    (hinit : coll.countP (docMatches keys (fillna r)) ≤ 1) :
    (∃ d, queryByKey keys (fillna r)
        (ingest_collection keys coll (pre ++ r :: post)) = [d]
      ∧ ∀ k v, (fillna r).lookup k = some v → d.lookup k = some v)
    ∧ (ingest_collection keys (ingest_collection keys coll (pre ++ r :: post))
        (pre ++ r :: post)).length
        = (ingest_collection keys coll (pre ++ r :: post)).length := by
  have hkpre : ∀ r' ∈ pre, ∀ k ∈ keys, ((fillna r').lookup k).isSome :=
    fun r' h' => hk r' (List.mem_append_left _ h')
  have hkr : ∀ k ∈ keys, ((fillna r).lookup k).isSome :=
    hk r (List.mem_append_right _ (List.mem_cons_self _ _))
  have hkpost : ∀ r' ∈ post, ∀ k ∈ keys, ((fillna r').lookup k).isSome :=
    fun r' h' => hk r' (List.mem_append_right _ (List.mem_cons_of_mem _ h'))
  constructor
  · rw [ingest_append, ingest_cons]
    have hle1 : (ingest_collection keys coll pre).countP
        (docMatches keys (fillna r)) ≤ 1 :=
      ingest_countP_le keys (fillna r) pre hkpre coll hinit
    obtain ⟨d, hq, hv⟩ := applyUpdateOne_query keys (fillna r) hkr _ hle1
    refine ⟨d, ?_, hv⟩
    rw [ingest_query_preserved keys (fillna r) post hkpost hpost, hq]
  · exact ingest_length_of_all_matched keys _ hk _
      (fun r' hr' => ingest_all_matched keys _ hk coll r' hr')

/-- A one-row CSV with a present key cell and a missing value cell. -/
def wRow : CsvRow := ⟨[("id", some "1"), ("x", none)]⟩

theorem C8_witness :
    (∃ d, queryByKey ["id"] (fillna wRow)
        (ingest_collection ["id"] [] ([] ++ wRow :: [])) = [d]
      ∧ ∀ k v, (fillna wRow).lookup k = some v → d.lookup k = some v)
    ∧ (ingest_collection ["id"] (ingest_collection ["id"] [] ([] ++ wRow :: []))
        ([] ++ wRow :: [])).length
        = (ingest_collection ["id"] [] ([] ++ wRow :: [])).length :=
  C8_ingest_roundtrip_idempotent ["id"] [] [] [] wRow (by decide) (by decide) (by decide)

end GoodBooks
